import Mathlib

/-!
Verification development for `model/delegator.py` of CommonsBuild/revenue-sharing.

The Python code works on IEEE floats; we embed its arithmetic in the real
numbers `ℝ`.  Python's `/` raises `ZeroDivisionError` on a zero denominator and
`assert` raises `AssertionError`, so every fallible function returns
`Except PyErr _`; each division site in the source is guarded here by the exact
zero test Python performs implicitly.  `x ** (1 / 2)` is modelled as
`Real.sqrt x` (the principal square root; on a negative radicand Python would
promote to a complex number, a float artefact outside the model's domain).
The `dict` `_unvested_shares` (timestep ↦ shares, last write wins) is modelled
as an association list in insertion order.
-/

/-- The Python runtime errors that the embedded code can raise. -/
inductive PyErr where
  | zeroDivision
  | assertionError
  | indexError
deriving DecidableEq

/-- State of a `Delegator` object: every field assigned in `Delegator.__init__`. -/
structure Delegator where
  id : ℕ
  _unvested_shares : List (ℕ × ℝ)
  vested_shares : ℝ
  revenue_token_holdings : ℝ
  reserve_token_holdings : ℝ
  expected_revenue : ℝ
  discount_rate : ℝ
  time_factor : ℝ
  delegator_activity_rate : ℝ
  minimum_shares : ℝ
  avg_delta_price : ℝ
  regression_to_mean_private_price : ℝ
  value_private_price : ℝ
  trendline_private_price : ℝ
  delegator_type : ℤ
  component_weights : List ℝ
  private_price : ℝ
  smoothing_factor : ℝ
  cost_basis : ℝ
  unrealized_gains_from_shares : ℝ
  realized_gains_from_shares : ℝ
  realized_gains_from_dividends : ℝ

/-- Python dict assignment `m[k] = v`: overwrite the entry if the key is
present (keeping its position, as Python dicts do), else append it. -/
def setKey (m : List (ℕ × ℝ)) (k : ℕ) (v : ℝ) : List (ℕ × ℝ) :=
  if m.any (fun p => p.1 == k) then
    m.map (fun p => if p.1 = k then (k, v) else p)
  else m ++ [(k, v)]

/-- Python dict lookup `m.get(k)`. -/
def getKey (m : List (ℕ × ℝ)) (k : ℕ) : Option ℝ :=
  (m.find? (fun p => p.1 == k)).map Prod.snd

/-- `unvested_shares` property: `sum(s for s in self._unvested_shares.values())`. -/
def Delegator.unvested_shares (d : Delegator) : ℝ :=
  (d._unvested_shares.map Prod.snd).sum

/-- `shares` property: `self.unvested_shares + self.vested_shares`. -/
def Delegator.shares (d : Delegator) : ℝ :=
  d.unvested_shares + d.vested_shares

/-- `is_member`: `self.shares > 0`. -/
def Delegator.is_member (d : Delegator) : Prop :=
  0 < d.shares

/-- Resolve a Python list index (negative indices count from the end);
`none` means the access raises `IndexError`. -/
def pyIdx (len : ℕ) (i : ℤ) : Option ℕ :=
  let j := if i < 0 then i + len else i
  if 0 ≤ j ∧ j < len then some j.toNat else none

/-- Python `xs[i]` on a list of floats. -/
def pyListGet (xs : List ℝ) (i : ℤ) : Except PyErr ℝ :=
  match pyIdx xs.length i with
  | some n => .ok (xs.getD n 0)
  | none => .error .indexError

/-- Python `xs[i] = v` on a list of floats. -/
def pyListSet (xs : List ℝ) (i : ℤ) (v : ℝ) : Except PyErr (List ℝ) :=
  match pyIdx xs.length i with
  | some n => .ok (xs.set n v)
  | none => .error .indexError

/-- `get_component_weights(delegator_type)`.  The three exponential draws
`stats.expon.rvs(size=3)` of the mixed branch are passed in as `e1 e2 e3`
(the function is otherwise deterministic); `AVG_OUTSIZE_FACTOR_OF_PRICE_TYPE`
is 10 and the outsized index is `delegator_type - 1`, then `- 1` again, with
Python's negative-index semantics.  numpy's `weights / sum(weights)` is
elementwise division. -/
noncomputable def get_component_weights (e1 e2 e3 : ℝ) (delegator_type : ℤ) :
    Except PyErr (List ℝ) :=
  if delegator_type = 0 then
    let weights := [e1, e2, e3]
    let idxOfOutsized := delegator_type - 1
    match pyListGet weights (idxOfOutsized - 1) with
    | .error e => .error e
    | .ok w =>
      match pyListSet weights (idxOfOutsized - 1) (w * 10) with
      | .error e => .error e
      | .ok weights2 => .ok (weights2.map (fun x => x / weights2.sum))
  else
    match pyListSet [0, 0, 0] (delegator_type - 1) 1 with
    | .error e => .error e
    | .ok normalized_weights => .ok normalized_weights

/-- `Delegator.__init__`.  The process-wide counter value used for `self.id`
is passed as `id`; `e1 e2 e3` are the sampler's exponential draws.
`time_factor = 1 / (1 - discount_rate)` raises `ZeroDivisionError` when
`discount_rate = 1`; an out-of-range `delegator_type` raises `IndexError`
inside `get_component_weights`. -/
noncomputable def Delegator.make (shares reserve_token_holdings expected_revenue
    discount_rate spot_price delegator_activity_rate minimum_shares
    smoothing_factor : ℝ) (delegator_type : ℤ) (id : ℕ) (e1 e2 e3 : ℝ) :
    Except PyErr Delegator :=
  if (1 : ℝ) - discount_rate = 0 then .error .zeroDivision else
  let resolved_type : ℤ :=
    if delegator_type ≠ 0 then delegator_type else ((id : ℤ) - 1) % 3 + 1
  match get_component_weights e1 e2 e3 resolved_type with
  | .error e => .error e
  | .ok ws =>
    .ok { id := id
          _unvested_shares := [(0, shares)]
          vested_shares := 0
          revenue_token_holdings := 0
          reserve_token_holdings := reserve_token_holdings
          expected_revenue := expected_revenue
          discount_rate := discount_rate
          time_factor := 1 / (1 - discount_rate)
          delegator_activity_rate := delegator_activity_rate
          minimum_shares := minimum_shares
          avg_delta_price := 0
          regression_to_mean_private_price := spot_price
          value_private_price := spot_price
          trendline_private_price := spot_price
          delegator_type := resolved_type
          component_weights := ws
          private_price := 0
          smoothing_factor := smoothing_factor
          cost_basis := 0
          unrealized_gains_from_shares := 0
          realized_gains_from_shares := 0
          realized_gains_from_dividends := 0 }

/-- `dividend_value(supply, owners_share, reserve_to_revenue_token_exchange_rate)`:
returns the time-corrected per-share reserve value and the mutated state
(`realized_gains_from_dividends` incremented by the undiscounted per-share
amount times the agent's own shares); `assert(supply > 0)` fails otherwise. -/
noncomputable def Delegator.dividend_value (d : Delegator)
    (supply owners_share reserve_to_revenue_token_exchange_rate : ℝ) :
    Except PyErr (ℝ × Delegator) :=
  if 0 < supply then
    let revenue_per_period_per_share := d.expected_revenue * (1 - owners_share) / supply
    let reserve_asset_per_period_per_share :=
      revenue_per_period_per_share * reserve_to_revenue_token_exchange_rate
    let reserve_asset_per_share_time_corrected :=
      reserve_asset_per_period_per_share * d.time_factor
    .ok (reserve_asset_per_share_time_corrected,
      { d with realized_gains_from_dividends :=
          d.realized_gains_from_dividends + reserve_asset_per_period_per_share * d.shares })
  else .error .assertionError

/-- `pct_price_diff` of `buy_or_sell` steps 1: `abs((private_price - spot_price)
/ spot_price)` when `spot_price > 0`, else the initial value `0`. -/
noncomputable def pct_price_diff (private_price spot_price : ℝ) : ℝ :=
  if 0 < spot_price then |(private_price - spot_price) / spot_price| else 0

/-- The BUY branch of `buy_or_sell` (lines 139-156): size the spend, clip it to
the holdings, price the created shares, and overwrite `_unvested_shares[timestep]`.
Both divisions are by `reserve` (up to the factor 4), hence one zero test. -/
noncomputable def buy_step (d : Delegator) (supply reserve : ℝ) (timestep : ℕ) :
    Except PyErr (Delegator × ℝ × ℝ) :=
  if 4 * reserve = 0 then .error .zeroDivision else
  let added_reserve0 :=
    (d.private_price ^ 2 * supply ^ 2 - 4 * reserve ^ 2) / (4 * reserve)
  let added_reserve :=
    if d.reserve_token_holdings < added_reserve0 then d.reserve_token_holdings
    else added_reserve0
  let created_shares := supply * Real.sqrt (1 + added_reserve / reserve) - supply
  .ok ({ d with _unvested_shares := setKey d._unvested_shares timestep created_shares },
       created_shares, added_reserve)

/-- The SELL branch of `buy_or_sell` (lines 167-193): size the burn (before the
vested check, as in the source), clip to vested shares and to the
minimum-shares floor, pay out, and decrement `vested_shares`. -/
noncomputable def sell_step (d : Delegator) (supply reserve : ℝ) :
    Except PyErr (Delegator × ℝ × ℝ) :=
  if 2 * reserve = 0 then .error .zeroDivision else
  let burned_shares0 :=
    (2 * reserve * supply - d.private_price * supply ^ 2) / (2 * reserve)
  if 0 < d.vested_shares then
    let burned_shares1 :=
      if d.vested_shares < burned_shares0 then d.vested_shares else burned_shares0
    let burned_shares :=
      if d.vested_shares - burned_shares1 < d.minimum_shares then
        d.vested_shares - d.minimum_shares
      else burned_shares1
    if supply = 0 then .error .zeroDivision else
    let reserve_paid_out := reserve - reserve * (1 - burned_shares / supply) ^ 2
    .ok ({ d with vested_shares := d.vested_shares - burned_shares },
         -burned_shares, -reserve_paid_out)
  else .ok (d, 0, 0)

/-- The tail of `buy_or_sell` (lines 210-246): decrement the holdings by
`added_reserve`, recompute the spot price, and do the cost-basis /
realized-gains / unrealized-gains bookkeeping when a trade happened.
`original_shares` and `original_cost_basis` are the values captured at entry. -/
noncomputable def settle (original_shares original_cost_basis supply reserve : ℝ)
    (d1 : Delegator) (created_shares added_reserve : ℝ) :
    Except PyErr (Delegator × ℝ × ℝ) :=
  let d2 := { d1 with reserve_token_holdings := d1.reserve_token_holdings - added_reserve }
  if supply + created_shares = 0 then .error .zeroDivision else
  let new_spot_price := 2 * (reserve + added_reserve) / (supply + created_shares)
  if created_shares = 0 then .ok (d2, created_shares, added_reserve)
  else
    let created_shares_cost_basis := added_reserve / created_shares
    if 0 < added_reserve then
      if d2.shares = 0 then .error .zeroDivision else
      let d3 := { d2 with cost_basis :=
        (original_cost_basis * original_shares + created_shares_cost_basis * created_shares)
          / d2.shares }
      .ok ({ d3 with unrealized_gains_from_shares :=
              d3.shares * new_spot_price - d3.shares * d3.cost_basis },
           created_shares, added_reserve)
    else if added_reserve < 0 then
      let d3 := { d2 with realized_gains_from_shares :=
        d2.realized_gains_from_shares
          - (created_shares_cost_basis - d2.cost_basis) * created_shares }
      .ok ({ d3 with unrealized_gains_from_shares :=
              d3.shares * new_spot_price - d3.shares * d3.cost_basis },
           created_shares, added_reserve)
    else
      .ok ({ d2 with unrealized_gains_from_shares :=
              d2.shares * new_spot_price - d2.shares * d2.cost_basis },
           created_shares, added_reserve)

/-- `buy_or_sell(supply, reserve, spot_price, mininum_required_price_pct_diff_to_act,
timestep)`: returns the mutated state together with `(created_shares, added_reserve)`.
The early return on a below-threshold price difference precedes every mutation. -/
noncomputable def Delegator.buy_or_sell (d : Delegator) (supply reserve spot_price
    mininum_required_price_pct_diff_to_act : ℝ) (timestep : ℕ) :
    Except PyErr (Delegator × ℝ × ℝ) :=
  if pct_price_diff d.private_price spot_price
      < mininum_required_price_pct_diff_to_act then
    .ok (d, 0, 0)
  else
    let step :=
      if spot_price < d.private_price then buy_step d supply reserve timestep
      else if d.private_price < spot_price then sell_step d supply reserve
      else .ok (d, 0, 0)
    match step with
    | .error e => .error e
    | .ok (d1, created_shares, added_reserve) =>
      settle d.shares d.cost_basis supply reserve d1 created_shares added_reserve

/-! ### Decomposition lemmas for the three blocks of `buy_or_sell` -/

/-- A successful `buy_step` sizes the spend by the bonding-curve formula,
clips it to the holdings, prices the created shares with the square root
formula, and overwrites the unvested entry of the timestep. -/
theorem buy_step_ok {d : Delegator} {s r : ℝ} {t : ℕ} {d1 : Delegator} {cs ar : ℝ}
    (h : buy_step d s r t = .ok (d1, cs, ar)) :
    ar = (if d.reserve_token_holdings < (d.private_price ^ 2 * s ^ 2 - 4 * r ^ 2) / (4 * r)
          then d.reserve_token_holdings
          else (d.private_price ^ 2 * s ^ 2 - 4 * r ^ 2) / (4 * r)) ∧
    cs = s * Real.sqrt (1 + ar / r) - s ∧
    d1 = { d with _unvested_shares := setKey d._unvested_shares t cs } := by
  unfold buy_step at h
  split at h
  · exact absurd h (by simp)
  · simp only [Except.ok.injEq, Prod.mk.injEq] at h
    obtain ⟨h1, h2, h3⟩ := h
    subst h3; subst h2; subst h1
    exact ⟨rfl, rfl, rfl⟩

/-- A successful `sell_step` either is a no-op because no shares are vested,
or burns an amount that leaves at least `minimum_shares` vested. -/
theorem sell_step_ok {d : Delegator} {s r : ℝ} {d1 : Delegator} {cs ar : ℝ}
    (h : sell_step d s r = .ok (d1, cs, ar)) :
    (d.vested_shares ≤ 0 ∧ d1 = d ∧ cs = 0 ∧ ar = 0) ∨
    (0 < d.vested_shares ∧ ∃ b, cs = -b ∧
       d1 = { d with vested_shares := d.vested_shares - b } ∧
       d.minimum_shares ≤ d.vested_shares - b) := by
  unfold sell_step at h
  split at h
  · exact absurd h (by simp)
  split at h
  case _ hv =>
    split at h
    · exact absurd h (by simp)
    simp only [Except.ok.injEq, Prod.mk.injEq] at h
    obtain ⟨h1, h2, h3⟩ := h
    subst h1; subst h2; subst h3
    refine Or.inr ⟨hv, _, rfl, rfl, ?_⟩
    by_cases hmin :
        d.vested_shares -
            (if d.vested_shares < (2 * r * s - d.private_price * s ^ 2) / (2 * r)
             then d.vested_shares
             else (2 * r * s - d.private_price * s ^ 2) / (2 * r)) <
          d.minimum_shares
    · rw [if_pos hmin]; simp
    · rw [if_neg hmin]; exact le_of_not_lt hmin
  case _ hv =>
    simp only [Except.ok.injEq, Prod.mk.injEq] at h
    obtain ⟨h1, h2, h3⟩ := h
    exact Or.inl ⟨le_of_not_lt hv, h1.symm, h2.symm, h3.symm⟩

/-- A successful `settle` keeps the trade deltas, decrements the holdings by
`added_reserve`, leaves the share ledgers alone, and rewrites the cost basis
exactly when the trade was a positive-spend one. -/
theorem settle_ok {os ocb s r : ℝ} {d1 : Delegator} {cs ar : ℝ} {d' : Delegator}
    {c a : ℝ} (h : settle os ocb s r d1 cs ar = .ok (d', c, a)) :
    c = cs ∧ a = ar ∧
    d'.reserve_token_holdings = d1.reserve_token_holdings - ar ∧
    d'.vested_shares = d1.vested_shares ∧
    d'._unvested_shares = d1._unvested_shares ∧
    d'.cost_basis = (if cs = 0 ∨ ar ≤ 0 then d1.cost_basis
      else (ocb * os + ar / cs * cs) / d1.shares) := by
  unfold settle at h
  dsimp only at h
  split at h
  · exact absurd h (by simp)
  split at h
  case _ hcs =>
    simp only [Except.ok.injEq, Prod.mk.injEq] at h
    obtain ⟨h1, h2, h3⟩ := h
    subst h1; subst h2; subst h3
    refine ⟨rfl, rfl, rfl, rfl, rfl, ?_⟩
    rw [if_pos (Or.inl hcs)]
  case _ hcs =>
    split at h
    case _ har =>
      split at h
      · exact absurd h (by simp)
      case _ hsh =>
        simp only [Except.ok.injEq, Prod.mk.injEq] at h
        obtain ⟨h1, h2, h3⟩ := h
        subst h1; subst h2; subst h3
        refine ⟨rfl, rfl, rfl, rfl, rfl, ?_⟩
        rw [if_neg (by push_neg; exact ⟨hcs, har⟩)]
        rfl
    case _ har =>
      split at h
      case _ har2 =>
        simp only [Except.ok.injEq, Prod.mk.injEq] at h
        obtain ⟨h1, h2, h3⟩ := h
        subst h1; subst h2; subst h3
        refine ⟨rfl, rfl, rfl, rfl, rfl, ?_⟩
        rw [if_pos (Or.inr (le_of_lt har2))]
      case _ har2 =>
        simp only [Except.ok.injEq, Prod.mk.injEq] at h
        obtain ⟨h1, h2, h3⟩ := h
        subst h1; subst h2; subst h3
        refine ⟨rfl, rfl, rfl, rfl, rfl, ?_⟩
        rw [if_pos (Or.inr (le_of_not_lt har))]

/-- On the buy branch `buy_or_sell` is `buy_step` followed by `settle`. -/
theorem buy_or_sell_eq_buy {d : Delegator} {s r sp m : ℝ} {t : ℕ}
    (hact : ¬ pct_price_diff d.private_price sp < m)
    (hbuy : sp < d.private_price) :
    d.buy_or_sell s r sp m t =
      match buy_step d s r t with
      | .error e => .error e
      | .ok (d1, cs, ar) => settle d.shares d.cost_basis s r d1 cs ar := by
  unfold Delegator.buy_or_sell
  rw [if_neg hact, if_pos hbuy]

/-- On the sell branch `buy_or_sell` is `sell_step` followed by `settle`. -/
theorem buy_or_sell_eq_sell {d : Delegator} {s r sp m : ℝ} {t : ℕ}
    (hact : ¬ pct_price_diff d.private_price sp < m)
    (hsell : d.private_price < sp) :
    d.buy_or_sell s r sp m t =
      match sell_step d s r with
      | .error e => .error e
      | .ok (d1, cs, ar) => settle d.shares d.cost_basis s r d1 cs ar := by
  unfold Delegator.buy_or_sell
  rw [if_neg hact, if_neg (lt_asymm hsell), if_pos hsell]

/-- When the private price equals the spot price, `buy_or_sell` only settles
the zero trade. -/
theorem buy_or_sell_eq_hold {d : Delegator} {s r sp m : ℝ} {t : ℕ}
    (hact : ¬ pct_price_diff d.private_price sp < m)
    (h1 : ¬ sp < d.private_price) (h2 : ¬ d.private_price < sp) :
    d.buy_or_sell s r sp m t = settle d.shares d.cost_basis s r d 0 0 := by
  unfold Delegator.buy_or_sell
  rw [if_neg hact, if_neg h1, if_neg h2]

/-! ### Dictionary lemmas -/

/-- Looking up the key just written by `setKey` yields the written value:
the Python dict assignment overwrites whatever was stored there. -/
theorem getKey_setKey (m : List (ℕ × ℝ)) (k : ℕ) (v : ℝ) :
    getKey (setKey m k v) k = some v := by
  unfold setKey getKey
  split
  case _ hmem =>
    induction m with
    | nil => simp at hmem
    | cons p t ih =>
      by_cases hk : p.1 = k
      · simp [hk]
      · have ht : t.any (fun q => q.1 == k) = true := by
          simp only [List.any_cons, Bool.or_eq_true, beq_iff_eq] at hmem
          rcases hmem with h | h
          · exact absurd h hk
          · exact h
        simp only [List.map_cons, if_neg hk]
        rw [List.find?_cons_of_neg _ (by simp [hk])]
        exact ih ht
  case _ hmem =>
    induction m with
    | nil => simp
    | cons p t ih =>
      simp only [List.any_cons, Bool.or_eq_true, beq_iff_eq] at hmem
      push_neg at hmem
      rw [List.cons_append, List.find?_cons_of_neg _ (by simp [hmem.1])]
      exact ih (by simpa using hmem.2)

/-- If every stored value is nonnegative and the written value is nonnegative,
the total of the unvested map after a `setKey` is at least the written value. -/
theorem sum_setKey_ge (m : List (ℕ × ℝ)) (k : ℕ) (v : ℝ)
    (hm : ∀ p ∈ m, 0 ≤ p.2) (hv : 0 ≤ v) :
    v ≤ ((setKey m k v).map Prod.snd).sum := by
  unfold setKey
  split
  case _ hmem =>
    induction m with
    | nil => simp at hmem
    | cons p t ih =>
      simp only [List.map_cons, List.map_map, List.sum_cons]
      by_cases hk : p.1 = k
      · rw [if_pos hk]
        have : 0 ≤ ((t.map (fun q => if q.1 = k then (k, v) else q)).map Prod.snd).sum := by
          apply List.sum_nonneg
          intro x hx
          simp only [List.mem_map] at hx
          obtain ⟨q, hq, hqx⟩ := hx
          obtain ⟨q', hq', hq'q⟩ := hq
          subst hqx; subst hq'q
          split
          · exact hv
          · exact hm q' (List.mem_cons_of_mem p hq')
        simpa using this
      · rw [if_neg hk]
        have ht : t.any (fun q => q.1 == k) = true := by
          simp only [List.any_cons, Bool.or_eq_true, beq_iff_eq] at hmem
          rcases hmem with h | h
          · exact absurd h hk
          · exact h
        have := ih (fun q hq => hm q (List.mem_cons_of_mem p hq)) ht
        have hp : 0 ≤ p.2 := hm p (List.mem_cons_self p t)
        simp only [List.map_map] at this ⊢
        linarith
  case _ hmem =>
    have : 0 ≤ (m.map Prod.snd).sum := by
      apply List.sum_nonneg
      intro x hx
      simp only [List.mem_map] at hx
      obtain ⟨q, hq, hqx⟩ := hx
      subst hqx
      exact hm q hq
    simp only [List.map_append, List.sum_append]
    simpa using this

/-- Settling a zero trade only rewrites `reserve_token_holdings` by `- 0`:
the state is unchanged. -/
theorem settle_zero_ok {os ocb s r : ℝ} {d1 : Delegator} {d' : Delegator} {c a : ℝ}
    (h : settle os ocb s r d1 0 0 = .ok (d', c, a)) : d' = d1 ∧ c = 0 ∧ a = 0 := by
  unfold settle at h
  dsimp only at h
  split at h
  · exact absurd h (by simp)
  rw [if_pos rfl] at h
  simp only [Except.ok.injEq, Prod.mk.injEq] at h
  obtain ⟨h1, h2, h3⟩ := h
  refine ⟨?_, h2.symm, h3.symm⟩
  rw [← h1]
  simp

/-- Two states with the same unvested map and the same vested balance have the
same `shares`. -/
theorem shares_congr {d' d1 : Delegator}
    (h1 : d'._unvested_shares = d1._unvested_shares)
    (h2 : d'.vested_shares = d1.vested_shares) : d'.shares = d1.shares := by
  unfold Delegator.shares Delegator.unvested_shares
  rw [h1, h2]

/-- Case analysis for a successful `buy_or_sell` call: either the early
below-threshold return fired, or one of the three pricing branches produced
the trade that `settle` then booked. -/
theorem buy_or_sell_ok_elim {d : Delegator} {s r sp m : ℝ} {t : ℕ}
    {d' : Delegator} {c a : ℝ}
    (hok : d.buy_or_sell s r sp m t = .ok (d', c, a)) :
    (pct_price_diff d.private_price sp < m ∧ d' = d ∧ c = 0 ∧ a = 0) ∨
    (¬ pct_price_diff d.private_price sp < m ∧ ∃ d1 cs ar,
      settle d.shares d.cost_basis s r d1 cs ar = .ok (d', c, a) ∧
      ((sp < d.private_price ∧ buy_step d s r t = .ok (d1, cs, ar)) ∨
       (d.private_price < sp ∧ sell_step d s r = .ok (d1, cs, ar)) ∨
       (¬ sp < d.private_price ∧ ¬ d.private_price < sp ∧
         d1 = d ∧ cs = 0 ∧ ar = 0))) := by
  unfold Delegator.buy_or_sell at hok
  split at hok
  case _ hlt =>
    simp only [Except.ok.injEq, Prod.mk.injEq] at hok
    exact Or.inl ⟨hlt, hok.1.symm, hok.2.1.symm, hok.2.2.symm⟩
  case _ hge =>
    refine Or.inr ⟨hge, ?_⟩
    dsimp only at hok
    rcases hs : (if sp < d.private_price then buy_step d s r t
        else if d.private_price < sp then sell_step d s r
        else Except.ok (d, 0, 0)) with e | x
    · rw [hs] at hok
      exact absurd hok (by simp)
    · obtain ⟨d1, cs, ar⟩ := x
      rw [hs] at hok
      refine ⟨d1, cs, ar, hok, ?_⟩
      by_cases h1 : sp < d.private_price
      · rw [if_pos h1] at hs
        exact Or.inl ⟨h1, hs⟩
      · rw [if_neg h1] at hs
        by_cases h2 : d.private_price < sp
        · rw [if_pos h2] at hs
          exact Or.inr (Or.inl ⟨h2, hs⟩)
        · rw [if_neg h2] at hs
          simp only [Except.ok.injEq, Prod.mk.injEq] at hs
          exact Or.inr (Or.inr ⟨h1, h2, hs.1.symm, hs.2.1.symm, hs.2.2.symm⟩)

/-! ### Claim theorems -/

/-- C6: whenever the percent price difference (0 for a nonpositive spot price,
else the relative deviation of the private price) is strictly below the
action threshold, `buy_or_sell` returns `(0, 0)` and the returned state is the
input state, every field included. -/
theorem below_threshold_is_noop (d : Delegator) (supply reserve spot_price m : ℝ)
    (t : ℕ) (h : pct_price_diff d.private_price spot_price < m) :
    d.buy_or_sell supply reserve spot_price m t = .ok (d, 0, 0) := by
  unfold Delegator.buy_or_sell
  rw [if_pos h]

/-- C2: on a successful buy-branch call the spend is at most the agent's
entering holdings, the holdings are decremented by exactly the spend, and the
resulting holdings are nonnegative, from any starting state. -/
theorem buy_branch_keeps_holdings_nonneg {d : Delegator} {s r sp m : ℝ} {t : ℕ}
    {d' : Delegator} {c a : ℝ}
    (hbuy : sp < d.private_price)
    (hact : ¬ pct_price_diff d.private_price sp < m)
    (hok : d.buy_or_sell s r sp m t = .ok (d', c, a)) :
    a ≤ d.reserve_token_holdings ∧
    d'.reserve_token_holdings = d.reserve_token_holdings - a ∧
    0 ≤ d'.reserve_token_holdings := by
  rw [buy_or_sell_eq_buy hact hbuy] at hok
  rcases hb : buy_step d s r t with e | x
  · rw [hb] at hok; exact absurd hok (by simp)
  · obtain ⟨d1, cs, ar⟩ := x
    simp only [hb] at hok
    obtain ⟨har, hcs, hd1⟩ := buy_step_ok hb
    obtain ⟨hc, ha, hres, -, -, -⟩ := settle_ok hok
    have hold : d1.reserve_token_holdings = d.reserve_token_holdings := by rw [hd1]
    subst ha
    refine ⟨?_, ?_, ?_⟩
    · rw [har]
      split
      case _ h => exact le_refl _
      case _ h => exact le_of_not_lt h
    · rw [hres, hold]
    · rw [hres, hold, har]
      split
      case _ h => simp
      case _ h => linarith [le_of_not_lt h]

/-- C3: on a successful sell-branch call, if any shares were vested the vested
balance after the call is at least `minimum_shares` (both clips included), and
if no shares were vested the call is a no-op returning `(0, 0)`. -/
theorem sell_branch_respects_minimum {d : Delegator} {s r sp m : ℝ} {t : ℕ}
    {d' : Delegator} {c a : ℝ}
    (hsell : d.private_price < sp)
    (hact : ¬ pct_price_diff d.private_price sp < m)
    (hok : d.buy_or_sell s r sp m t = .ok (d', c, a)) :
    (0 < d.vested_shares → d.minimum_shares ≤ d'.vested_shares) ∧
    (d.vested_shares ≤ 0 → d' = d ∧ c = 0 ∧ a = 0) := by
  rw [buy_or_sell_eq_sell hact hsell] at hok
  rcases hb : sell_step d s r with e | x
  · rw [hb] at hok; exact absurd hok (by simp)
  · obtain ⟨d1, cs, ar⟩ := x
    simp only [hb] at hok
    rcases sell_step_ok hb with ⟨hv0, hd1, hcs0, har0⟩ | ⟨hv, b, hcsb, hd1, hfloor⟩
    · subst hd1; subst hcs0; subst har0
      obtain ⟨hde, hc, ha⟩ := settle_zero_ok hok
      constructor
      · intro hpos; exact absurd hpos (not_lt.mpr hv0)
      · intro _; exact ⟨hde, hc, ha⟩
    · obtain ⟨hc, ha, hres, hves, hunv, hcb⟩ := settle_ok hok
      constructor
      · intro _
        rw [hves, hd1]
        exact hfloor
      · intro hle; exact absurd hv (not_lt.mpr hle)

/-- C5: on any successful `buy_or_sell` call, the cost basis is rewritten to
the shares-weighted average over the new total shares exactly when the trade
spent reserve (`added_reserve > 0`, `created_shares ≠ 0`, the source's buy
accounting), and is unchanged on every sell and every no-op. -/
theorem cost_basis_update_spec {d : Delegator} {s r sp m : ℝ} {t : ℕ}
    {d' : Delegator} {c a : ℝ}
    (hok : d.buy_or_sell s r sp m t = .ok (d', c, a)) :
    (c ≠ 0 ∧ 0 < a →
      d'.cost_basis = (d.cost_basis * d.shares + a / c * c) / d'.shares) ∧
    (c = 0 ∨ a ≤ 0 → d'.cost_basis = d.cost_basis) := by
  rcases buy_or_sell_ok_elim hok with ⟨-, hde, hc, ha⟩ | ⟨-, d1, cs, ar, hsettle, hbr⟩
  · subst hde; subst hc; subst ha
    exact ⟨fun h => absurd rfl h.1, fun _ => rfl⟩
  · obtain ⟨hc, ha, hres, hves, hunv, hcb⟩ := settle_ok hsettle
    subst hc; subst ha
    have hcb1 : d1.cost_basis = d.cost_basis := by
      rcases hbr with ⟨-, hb⟩ | ⟨-, hb⟩ | ⟨-, -, hb, -, -⟩
      · obtain ⟨-, -, hd1⟩ := buy_step_ok hb
        rw [hd1]
      · rcases sell_step_ok hb with ⟨-, hd1, -, -⟩ | ⟨-, b, -, hd1, -⟩ <;> rw [hd1]
      · rw [hb]
    have hsh : d'.shares = d1.shares := shares_congr hunv hves
    constructor
    · rintro ⟨hcs, har⟩
      rw [hcb, if_neg (by push_neg; exact ⟨hcs, har⟩), hsh]
    · intro h
      rw [hcb, if_pos h, hcb1]

/-- A successful buy-branch call stores exactly the created shares at the
timestep's unvested entry, whatever was there before. -/
theorem buy_sets_unvested_entry {d : Delegator} {s r sp m : ℝ} {t : ℕ}
    {d' : Delegator} {c a : ℝ}
    (hbuy : sp < d.private_price)
    (hact : ¬ pct_price_diff d.private_price sp < m)
    (hok : d.buy_or_sell s r sp m t = .ok (d', c, a)) :
    getKey d'._unvested_shares t = some c := by
  rw [buy_or_sell_eq_buy hact hbuy] at hok
  rcases hb : buy_step d s r t with e | x
  · rw [hb] at hok; exact absurd hok (by simp)
  · obtain ⟨d1, cs, ar⟩ := x
    simp only [hb] at hok
    obtain ⟨-, -, hd1⟩ := buy_step_ok hb
    obtain ⟨hc, -, -, -, hunv, -⟩ := settle_ok hok
    subst hc
    rw [hunv, hd1]
    exact getKey_setKey _ _ _

/-! ### Equation lemmas for concrete runs -/

/-- `buy_step` when the computed spend exceeds the holdings: the spend is
clipped to the holdings. -/
theorem buy_step_eq {d : Delegator} {s r : ℝ} {t : ℕ} (h : ¬ 4 * r = 0)
    (hclip : d.reserve_token_holdings <
      (d.private_price ^ 2 * s ^ 2 - 4 * r ^ 2) / (4 * r)) :
    buy_step d s r t =
      .ok ({ d with _unvested_shares := setKey d._unvested_shares t (s * Real.sqrt (1 + d.reserve_token_holdings / r) - s) },
           s * Real.sqrt (1 + d.reserve_token_holdings / r) - s,
           d.reserve_token_holdings) := by
  unfold buy_step
  rw [if_neg h]
  dsimp only
  rw [if_pos hclip]

/-- `settle` on a positive-spend trade with nonzero created shares. -/
theorem settle_buy_eq {os ocb s r : ℝ} {d1 : Delegator} {cs ar : ℝ}
    (h1 : ¬ s + cs = 0) (h2 : ¬ cs = 0) (h3 : 0 < ar) (h4 : ¬ d1.shares = 0) :
    settle os ocb s r d1 cs ar =
      .ok ({ d1 with
              reserve_token_holdings := d1.reserve_token_holdings - ar,
              cost_basis := (ocb * os + ar / cs * cs) / d1.shares,
              unrealized_gains_from_shares :=
                d1.shares * (2 * (r + ar) / (s + cs)) -
                  d1.shares * ((ocb * os + ar / cs * cs) / d1.shares) },
           cs, ar) := by
  unfold settle
  dsimp only
  rw [if_neg h1, if_neg h2, if_pos h3,
    if_neg (show ¬ Delegator.shares { d1 with reserve_token_holdings :=
      d1.reserve_token_holdings - ar } = 0 from h4)]
  rfl

/-- `settle` on a sell (negative `added_reserve`) with nonzero created shares. -/
theorem settle_sell_eq {os ocb s r : ℝ} {d1 : Delegator} {cs ar : ℝ}
    (h1 : ¬ s + cs = 0) (h2 : ¬ cs = 0) (h3 : ¬ 0 < ar) (h4 : ar < 0) :
    settle os ocb s r d1 cs ar =
      .ok ({ d1 with
              reserve_token_holdings := d1.reserve_token_holdings - ar,
              realized_gains_from_shares :=
                d1.realized_gains_from_shares - (ar / cs - d1.cost_basis) * cs,
              unrealized_gains_from_shares :=
                d1.shares * (2 * (r + ar) / (s + cs)) -
                  d1.shares * d1.cost_basis },
           cs, ar) := by
  unfold settle
  dsimp only
  rw [if_neg h1, if_neg h2, if_neg h3, if_pos h4]
  rfl

/-- The concrete buying agent of the spec's worked example: 500 reserve-token
holdings, private price 3, no shares yet. -/
noncomputable def dBuy : Delegator :=
  { id := 0
    _unvested_shares := [(0, 0)]
    vested_shares := 0
    revenue_token_holdings := 0
    reserve_token_holdings := 500
    expected_revenue := 50
    discount_rate := 9/10
    time_factor := 10
    delegator_activity_rate := 1/2
    minimum_shares := 0
    avg_delta_price := 0
    regression_to_mean_private_price := 2
    value_private_price := 2
    trendline_private_price := 2
    delegator_type := 1
    component_weights := [1, 0, 0]
    private_price := 3
    smoothing_factor := 9/10
    cost_basis := 0
    unrealized_gains_from_shares := 0
    realized_gains_from_shares := 0
    realized_gains_from_dividends := 0 }

/-- The spec's buy example run: supply 1000, reserve 1000, spot price 2,
threshold 1/100.  The spend 1250 is clipped to the 500 held, and
`1000 * sqrt(1.5) - 1000` shares are created. -/
theorem dBuy_run : ∃ d', dBuy.buy_or_sell 1000 1000 2 (1/100) 0 =
    .ok (d', 1000 * Real.sqrt (3/2) - 1000, 500) := by
  have hsq1 : (1:ℝ) < Real.sqrt (3/2) := by
    rw [← Real.sqrt_one]
    exact Real.sqrt_lt_sqrt (by norm_num) (by norm_num)
  have hb : buy_step dBuy 1000 1000 0 =
      .ok ({ dBuy with _unvested_shares := setKey dBuy._unvested_shares 0 (1000 * Real.sqrt (1 + dBuy.reserve_token_holdings / 1000) - 1000) },
           1000 * Real.sqrt (1 + dBuy.reserve_token_holdings / 1000) - 1000,
           dBuy.reserve_token_holdings) :=
    buy_step_eq (by norm_num) (by unfold dBuy; norm_num)
  rw [show (1:ℝ) + dBuy.reserve_token_holdings / 1000 = 3/2 by unfold dBuy; norm_num] at hb
  rw [show dBuy.reserve_token_holdings = (500:ℝ) from rfl] at hb
  exact ⟨_, by
    rw [buy_or_sell_eq_buy
      (by
        unfold pct_price_diff dBuy
        norm_num
        rw [abs_of_nonneg (by norm_num : (0:ℝ) ≤ 1/2)]
        norm_num)
      (show (2:ℝ) < dBuy.private_price by unfold dBuy; norm_num), hb]
    exact settle_buy_eq (by intro h; linarith) (by intro h; linarith) (by norm_num)
      (by
        intro h
        have h' : 1000 * Real.sqrt (3/2) - 1000 + 0 + 0 = (0:ℝ) := h
        linarith)⟩

/-- The state dBuy reaches after the example buy (named via choice from
`dBuy_run`; only the returned deltas matter to the claims). -/
noncomputable def dBuyAfter : Delegator := Classical.choose dBuy_run

/-- The defining property of `dBuyAfter`. -/
theorem dBuyAfter_spec : dBuy.buy_or_sell 1000 1000 2 (1/100) 0 =
    .ok (dBuyAfter, 1000 * Real.sqrt (3/2) - 1000, 500) :=
  Classical.choose_spec dBuy_run

/-- C1: a successful buy-branch call spends
`min ((privatePrice^2 supply^2 - 4 reserve^2)/(4 reserve)) reserveTokenHoldings`
and creates `supply * sqrt(1 + addedReserve/reserve) - supply` shares; on the
spec's example (supply 1000, reserve 1000, spot 2, private price 3, holdings
500, threshold 1/100) the call returns `addedReserve = 500` and
`createdShares = 1000 * sqrt(1.5) - 1000`. -/
theorem buy_sizing_spec :
    (∀ (d : Delegator) (s r sp m : ℝ) (t : ℕ) (d' : Delegator) (c a : ℝ),
      sp < d.private_price →
      ¬ pct_price_diff d.private_price sp < m →
      d.buy_or_sell s r sp m t = .ok (d', c, a) →
      a = min ((d.private_price ^ 2 * s ^ 2 - 4 * r ^ 2) / (4 * r))
            d.reserve_token_holdings ∧
      c = s * Real.sqrt (1 + a / r) - s) ∧
    dBuy.buy_or_sell 1000 1000 2 (1/100) 0 =
      .ok (dBuyAfter, 1000 * Real.sqrt (3/2) - 1000, 500) := by
  constructor
  · intro d s r sp m t d' c a hbuy hact hok
    rw [buy_or_sell_eq_buy hact hbuy] at hok
    rcases hb : buy_step d s r t with e | x
    · rw [hb] at hok; exact absurd hok (by simp)
    · obtain ⟨d1, cs, ar⟩ := x
      simp only [hb] at hok
      obtain ⟨har, hcs, -⟩ := buy_step_ok hb
      obtain ⟨hc, ha, -, -, -, -⟩ := settle_ok hok
      subst hc; subst ha
      constructor
      · rw [har]
        rcases lt_or_le d.reserve_token_holdings
            ((d.private_price ^ 2 * s ^ 2 - 4 * r ^ 2) / (4 * r)) with hlt | hle
        · rw [if_pos hlt, min_eq_right (le_of_lt hlt)]
        · rw [if_neg (not_lt.mpr hle), min_eq_left hle]
      · exact hcs
  · exact dBuyAfter_spec

/-- An agent identical to `dBuy` except for an initial grant of 1000 shares
stored at timestep 0. -/
noncomputable def dGrant : Delegator := { dBuy with _unvested_shares := [(0, 1000)] }

/-- Buying at timestep 0 overwrites the 1000-share initial grant with the
roughly 224.7 created shares, so total shares strictly decrease. -/
theorem dGrant_run : ∃ d', dGrant.buy_or_sell 1000 1000 2 (1/100) 0 =
    .ok (d', 1000 * Real.sqrt (3/2) - 1000, 500) ∧ d'.shares < dGrant.shares := by
  have hsq1 : (1:ℝ) < Real.sqrt (3/2) := by
    rw [← Real.sqrt_one]
    exact Real.sqrt_lt_sqrt (by norm_num) (by norm_num)
  have hsq2 : Real.sqrt (3/2) < 2 := by
    rw [Real.sqrt_lt' (by norm_num : (0:ℝ) < 2)]
    norm_num
  have hb : buy_step dGrant 1000 1000 0 =
      .ok ({ dGrant with _unvested_shares := setKey dGrant._unvested_shares 0 (1000 * Real.sqrt (1 + dGrant.reserve_token_holdings / 1000) - 1000) },
           1000 * Real.sqrt (1 + dGrant.reserve_token_holdings / 1000) - 1000,
           dGrant.reserve_token_holdings) :=
    buy_step_eq (by norm_num) (by unfold dGrant dBuy; norm_num)
  rw [show (1:ℝ) + dGrant.reserve_token_holdings / 1000 = 3/2 by unfold dGrant dBuy; norm_num] at hb
  rw [show dGrant.reserve_token_holdings = (500:ℝ) from rfl] at hb
  exact ⟨_, by
    rw [buy_or_sell_eq_buy
      (by
        unfold pct_price_diff dGrant dBuy
        norm_num
        rw [abs_of_nonneg (by norm_num : (0:ℝ) ≤ 1/2)]
        norm_num)
      (show (2:ℝ) < dGrant.private_price by unfold dGrant dBuy; norm_num), hb]
    exact settle_buy_eq (by intro h; linarith) (by intro h; linarith) (by norm_num)
      (by
        intro h
        have h' : 1000 * Real.sqrt (3/2) - 1000 + 0 + 0 = (0:ℝ) := h
        linarith),
    by
    show 1000 * Real.sqrt (3/2) - 1000 + 0 + 0 < 1000 + 0 + 0
    linarith⟩

/-- C10: a buy at timestep `t` stores exactly the created shares at the
unvested entry of `t`, discarding any previously stored amount; in particular
for the agent `dGrant`, constructed with an initial grant of 1000 shares at
timestep 0, a buy at timestep 0 replaces the grant and the total shares
strictly decrease. -/
theorem buy_overwrites_unvested_entry :
    (∀ (d : Delegator) (s r sp m : ℝ) (t : ℕ) (d' : Delegator) (c a : ℝ),
      sp < d.private_price →
      ¬ pct_price_diff d.private_price sp < m →
      d.buy_or_sell s r sp m t = .ok (d', c, a) →
      getKey d'._unvested_shares t = some c) ∧
    (∃ d', dGrant.buy_or_sell 1000 1000 2 (1/100) 0 =
      .ok (d', 1000 * Real.sqrt (3/2) - 1000, 500) ∧ d'.shares < dGrant.shares) := by
  constructor
  · exact fun d s r sp m t d' c a hbuy hact hok =>
      buy_sets_unvested_entry hbuy hact hok
  · exact dGrant_run

/-- The concrete selling agent of the spec's worked example: private price 1,
100 vested shares, minimum-share floor 10. -/
noncomputable def dSellr : Delegator :=
  { dBuy with private_price := 1, vested_shares := 100, minimum_shares := 10 }

/-- The sell branch of `sell_step` on `dSellr` against supply 1000 and
reserve 1000: the desired 500-share burn is clipped to the 100 vested and
then to the floor, burning 90 shares for a payout of 171.9. -/
theorem dSellr_sell_step : sell_step dSellr 1000 1000 =
    .ok ({ dSellr with vested_shares := dSellr.vested_shares - 90 },
         -(90:ℝ), -(1719/10)) := by
  unfold sell_step dSellr dBuy
  norm_num

/-- Threshold check for `dSellr` at spot price 2: the 50% deviation is not
below the 1% threshold. -/
theorem dSellr_acts : ¬ pct_price_diff dSellr.private_price 2 < 1/100 := by
  unfold pct_price_diff
  show ¬ (if (0:ℝ) < 2 then |((1:ℝ) - 2) / 2| else 0) < 1/100
  rw [if_pos (by norm_num : (0:ℝ) < 2),
    show ((1:ℝ) - 2) / 2 = -(1/2) by norm_num, abs_neg,
    abs_of_nonneg (by norm_num : (0:ℝ) ≤ 1/2)]
  norm_num

/-- The spec's sell example run: the burn is clipped to 90 and the state
books the 171.9 payout. -/
theorem dSellr_run : ∃ d', dSellr.buy_or_sell 1000 1000 2 (1/100) 0 =
    .ok (d', -(90:ℝ), -(1719/10)) := by
  exact ⟨_, by
    rw [buy_or_sell_eq_sell dSellr_acts
      (show dSellr.private_price < 2 by show (1:ℝ) < 2; norm_num), dSellr_sell_step]
    exact settle_sell_eq (by norm_num) (by norm_num) (by norm_num) (by norm_num)⟩

/-- The state `dSellr` reaches after the example sell. -/
noncomputable def dSellrAfter : Delegator := Classical.choose dSellr_run

/-- The defining property of `dSellrAfter`. -/
theorem dSellrAfter_spec : dSellr.buy_or_sell 1000 1000 2 (1/100) 0 =
    .ok (dSellrAfter, -(90:ℝ), -(1719/10)) :=
  Classical.choose_spec dSellr_run

/-! ### Witnesses -/

/-- Witness for C1 at the spec's example inputs. -/
theorem buy_sizing_spec_holds :
    (2:ℝ) < dBuy.private_price ∧
    ¬ pct_price_diff dBuy.private_price 2 < 1/100 ∧
    dBuy.buy_or_sell 1000 1000 2 (1/100) 0 =
      .ok (dBuyAfter, 1000 * Real.sqrt (3/2) - 1000, 500) ∧
    (500:ℝ) = min ((dBuy.private_price ^ 2 * 1000 ^ 2 - 4 * 1000 ^ 2) / (4 * 1000))
        dBuy.reserve_token_holdings ∧
    1000 * Real.sqrt (3/2) - 1000 = 1000 * Real.sqrt (1 + 500 / 1000) - 1000 := by
  have hbuy : (2:ℝ) < dBuy.private_price := by show (2:ℝ) < 3; norm_num
  have hact : ¬ pct_price_diff dBuy.private_price 2 < 1/100 := by
    unfold pct_price_diff
    show ¬ (if (0:ℝ) < 2 then |((3:ℝ) - 2) / 2| else 0) < 1/100
    rw [if_pos (by norm_num : (0:ℝ) < 2),
      show ((3:ℝ) - 2) / 2 = 1/2 by norm_num,
      abs_of_nonneg (by norm_num : (0:ℝ) ≤ 1/2)]
    norm_num
  obtain ⟨ha, hc⟩ := buy_sizing_spec.1 dBuy 1000 1000 2 (1/100) 0 dBuyAfter
    (1000 * Real.sqrt (3/2) - 1000) 500 hbuy hact dBuyAfter_spec
  exact ⟨hbuy, hact, dBuyAfter_spec, ha, hc⟩

/-- Witness for C2 at the spec's example inputs: the 1250 spend is clipped to
the 500 held and holdings end at 0. -/
theorem buy_branch_keeps_holdings_nonneg_holds :
    (2:ℝ) < dBuy.private_price ∧
    ¬ pct_price_diff dBuy.private_price 2 < 1/100 ∧
    dBuy.buy_or_sell 1000 1000 2 (1/100) 0 =
      .ok (dBuyAfter, 1000 * Real.sqrt (3/2) - 1000, 500) ∧
    (500:ℝ) ≤ dBuy.reserve_token_holdings ∧
    dBuyAfter.reserve_token_holdings = dBuy.reserve_token_holdings - 500 ∧
    0 ≤ dBuyAfter.reserve_token_holdings := by
  have hbuy : (2:ℝ) < dBuy.private_price := by show (2:ℝ) < 3; norm_num
  have hact : ¬ pct_price_diff dBuy.private_price 2 < 1/100 := by
    unfold pct_price_diff
    show ¬ (if (0:ℝ) < 2 then |((3:ℝ) - 2) / 2| else 0) < 1/100
    rw [if_pos (by norm_num : (0:ℝ) < 2),
      show ((3:ℝ) - 2) / 2 = 1/2 by norm_num,
      abs_of_nonneg (by norm_num : (0:ℝ) ≤ 1/2)]
    norm_num
  obtain ⟨h1, h2, h3⟩ := buy_branch_keeps_holdings_nonneg hbuy hact dBuyAfter_spec
  exact ⟨hbuy, hact, dBuyAfter_spec, h1, h2, h3⟩

/-- Witness for C3 at the spec's sell example: 100 vested, floor 10, burn
clipped to 90, ending exactly at the floor's side. -/
theorem sell_branch_respects_minimum_holds :
    dSellr.private_price < 2 ∧
    ¬ pct_price_diff dSellr.private_price 2 < 1/100 ∧
    dSellr.buy_or_sell 1000 1000 2 (1/100) 0 =
      .ok (dSellrAfter, -(90:ℝ), -(1719/10)) ∧
    0 < dSellr.vested_shares ∧
    dSellr.minimum_shares ≤ dSellrAfter.vested_shares := by
  have hsell : dSellr.private_price < 2 := by show (1:ℝ) < 2; norm_num
  have hv : 0 < dSellr.vested_shares := by show (0:ℝ) < 100; norm_num
  exact ⟨hsell, dSellr_acts, dSellrAfter_spec, hv,
    (sell_branch_respects_minimum hsell dSellr_acts dSellrAfter_spec).1 hv⟩

/-- Witness for C5 at the spec's buy example: cost basis becomes the weighted
average over the new total shares. -/
theorem cost_basis_update_spec_holds :
    dBuy.buy_or_sell 1000 1000 2 (1/100) 0 =
      .ok (dBuyAfter, 1000 * Real.sqrt (3/2) - 1000, 500) ∧
    (1000 * Real.sqrt (3/2) - 1000 ≠ 0 ∧ (0:ℝ) < 500) ∧
    dBuyAfter.cost_basis =
      (dBuy.cost_basis * dBuy.shares +
        500 / (1000 * Real.sqrt (3/2) - 1000) * (1000 * Real.sqrt (3/2) - 1000)) /
      dBuyAfter.shares := by
  have hsq1 : (1:ℝ) < Real.sqrt (3/2) := by
    rw [← Real.sqrt_one]
    exact Real.sqrt_lt_sqrt (by norm_num) (by norm_num)
  have hcs : 1000 * Real.sqrt (3/2) - 1000 ≠ 0 := by intro h; linarith
  exact ⟨dBuyAfter_spec, ⟨hcs, by norm_num⟩,
    (cost_basis_update_spec dBuyAfter_spec).1 ⟨hcs, by norm_num⟩⟩

/-- An agent whose private price equals the spot price 2. -/
noncomputable def dHold : Delegator := { dBuy with private_price := 2 }

/-- Witness for C6: with a zero price deviation and threshold 1 the call is a
no-op returning `(0, 0)`. -/
theorem below_threshold_is_noop_holds :
    pct_price_diff dHold.private_price 2 < 1 ∧
    dHold.buy_or_sell 1000 1000 2 1 0 = .ok (dHold, 0, 0) := by
  have h : pct_price_diff dHold.private_price 2 < 1 := by
    unfold pct_price_diff
    show (if (0:ℝ) < 2 then |((2:ℝ) - 2) / 2| else 0) < 1
    rw [if_pos (by norm_num : (0:ℝ) < 2)]
    norm_num
  exact ⟨h, below_threshold_is_noop dHold 1000 1000 2 1 0 h⟩

/-- Witness for C10: the buy at timestep 0 overwrote the 1000-share grant
with the created shares. -/
theorem buy_overwrites_unvested_entry_holds :
    (2:ℝ) < dGrant.private_price ∧
    ¬ pct_price_diff dGrant.private_price 2 < 1/100 ∧
    ∃ d', dGrant.buy_or_sell 1000 1000 2 (1/100) 0 =
        .ok (d', 1000 * Real.sqrt (3/2) - 1000, 500) ∧
      getKey d'._unvested_shares 0 = some (1000 * Real.sqrt (3/2) - 1000) ∧
      d'.shares < dGrant.shares := by
  have hbuy : (2:ℝ) < dGrant.private_price := by show (2:ℝ) < 3; norm_num
  have hact : ¬ pct_price_diff dGrant.private_price 2 < 1/100 := by
    unfold pct_price_diff
    show ¬ (if (0:ℝ) < 2 then |((3:ℝ) - 2) / 2| else 0) < 1/100
    rw [if_pos (by norm_num : (0:ℝ) < 2),
      show ((3:ℝ) - 2) / 2 = 1/2 by norm_num,
      abs_of_nonneg (by norm_num : (0:ℝ) ≤ 1/2)]
    norm_num
  obtain ⟨d', hrun, hdec⟩ := buy_overwrites_unvested_entry.2
  exact ⟨hbuy, hact, d', hrun,
    buy_overwrites_unvested_entry.1 dGrant 1000 1000 2 (1/100) 0 d'
      (1000 * Real.sqrt (3/2) - 1000) 500 hbuy hact hrun, hdec⟩

/-- C4: with positive supply, `dividend_value` returns the time-corrected
per-share figure `expectedRevenue * (1 - ownersShare) / supply * rate *
timeFactor` (not multiplied by the agent's shares), while the ledger
`realized_gains_from_dividends` grows by the undiscounted per-share reserve
amount times the agent's own share count; with nonpositive supply the call
fails with the assertion error. -/
theorem dividend_value_spec (d : Delegator) (supply os x : ℝ) :
    (0 < supply →
      d.dividend_value supply os x =
        .ok (d.expected_revenue * (1 - os) / supply * x * d.time_factor,
          { d with realized_gains_from_dividends :=
              d.realized_gains_from_dividends +
                d.expected_revenue * (1 - os) / supply * x * d.shares })) ∧
    (supply ≤ 0 → d.dividend_value supply os x = .error .assertionError) := by
  constructor
  · intro h
    unfold Delegator.dividend_value
    rw [if_pos h]
  · intro h
    unfold Delegator.dividend_value
    rw [if_neg (not_lt.mpr h)]

/-- Witness for C4 at the spec's numbers: supply 100, owners share 1/5,
exchange rate 1, expected revenue 50 and time factor 10 give the per-share
value 4, and the nonpositive-supply case errors. -/
theorem dividend_value_spec_holds :
    (0:ℝ) < 100 ∧
    dBuy.dividend_value 100 (1/5) 1 =
      .ok (dBuy.expected_revenue * (1 - 1/5) / 100 * 1 * dBuy.time_factor,
        { dBuy with realized_gains_from_dividends :=
            dBuy.realized_gains_from_dividends +
              dBuy.expected_revenue * (1 - 1/5) / 100 * 1 * dBuy.shares }) ∧
    dBuy.expected_revenue * (1 - 1/5) / 100 * 1 * dBuy.time_factor = 4 ∧
    (0:ℝ) ≤ 0 ∧
    dBuy.dividend_value 0 (1/5) 1 = .error .assertionError := by
  refine ⟨by norm_num, (dividend_value_spec dBuy 100 (1/5) 1).1 (by norm_num), ?_,
    le_refl 0, (dividend_value_spec dBuy 0 (1/5) 1).2 (le_refl 0)⟩
  show (50:ℝ) * (1 - 1/5) / 100 * 1 * 10 = 4
  norm_num

/-! ### Error analysis for C7 -/

/-- The only error `buy_step` can produce is the division-by-zero one. -/
theorem buy_step_err {d : Delegator} {s r : ℝ} {t : ℕ} {e : PyErr}
    (h : buy_step d s r t = .error e) : e = .zeroDivision := by
  unfold buy_step at h
  split at h
  · simp only [Except.error.injEq] at h
    exact h.symm
  · exact absurd h (by simp)

/-- The only error `sell_step` can produce is the division-by-zero one. -/
theorem sell_step_err {d : Delegator} {s r : ℝ} {e : PyErr}
    (h : sell_step d s r = .error e) : e = .zeroDivision := by
  unfold sell_step at h
  split at h
  · simp only [Except.error.injEq] at h
    exact h.symm
  split at h
  · split at h
    · simp only [Except.error.injEq] at h
      exact h.symm
    · exact absurd h (by simp)
  · exact absurd h (by simp)

/-- The only error `settle` can produce is the division-by-zero one. -/
theorem settle_err {os ocb s r : ℝ} {d1 : Delegator} {cs ar : ℝ} {e : PyErr}
    (h : settle os ocb s r d1 cs ar = .error e) : e = .zeroDivision := by
  unfold settle at h
  dsimp only at h
  split at h
  · simp only [Except.error.injEq] at h
    exact h.symm
  split at h
  · exact absurd h (by simp)
  split at h
  · split at h
    · simp only [Except.error.injEq] at h
      exact h.symm
    · exact absurd h (by simp)
  · split at h
    · exact absurd h (by simp)
    · exact absurd h (by simp)

/-- Any error raised by `buy_or_sell` is a `ZeroDivisionError`. -/
theorem buy_or_sell_err {d : Delegator} {s r sp m : ℝ} {t : ℕ} {e : PyErr}
    (h : d.buy_or_sell s r sp m t = .error e) : e = .zeroDivision := by
  unfold Delegator.buy_or_sell at h
  split at h
  · exact absurd h (by simp)
  dsimp only at h
  rcases hs : (if sp < d.private_price then buy_step d s r t
      else if d.private_price < sp then sell_step d s r
      else Except.ok (d, 0, 0)) with e' | x
  · rw [hs] at h
    simp only [Except.error.injEq] at h
    subst h
    by_cases h1 : sp < d.private_price
    · rw [if_pos h1] at hs
      exact buy_step_err hs
    · rw [if_neg h1] at hs
      by_cases h2 : d.private_price < sp
      · rw [if_pos h2] at hs
        exact sell_step_err hs
      · rw [if_neg h2] at hs
        exact absurd hs (by simp)
  · obtain ⟨d1, cs, ar⟩ := x
    simp only [hs] at h
    exact settle_err h

/-- `settle` returns normally whenever the spot-price denominator is nonzero
and, on a positive-spend trade, the new total shares are nonzero. -/
theorem settle_ok_exists {os ocb s r : ℝ} {d1 : Delegator} {cs ar : ℝ}
    (h1 : ¬ s + cs = 0) (h2 : cs ≠ 0 → 0 < ar → ¬ d1.shares = 0) :
    ∃ out, settle os ocb s r d1 cs ar = .ok out := by
  unfold settle
  dsimp only
  rw [if_neg h1]
  by_cases hcs : cs = 0
  · rw [if_pos hcs]
    exact ⟨_, rfl⟩
  · rw [if_neg hcs]
    by_cases har : 0 < ar
    · rw [if_pos har,
        if_neg (show ¬ Delegator.shares { d1 with reserve_token_holdings :=
          d1.reserve_token_holdings - ar } = 0 from h2 hcs har)]
      exact ⟨_, rfl⟩
    · rw [if_neg har]
      by_cases har2 : ar < 0
      · rw [if_pos har2]
        exact ⟨_, rfl⟩
      · rw [if_neg har2]
        exact ⟨_, rfl⟩

/-- `buy_step` returns normally whenever the reserve is nonzero. -/
theorem buy_step_ok_exists {d : Delegator} {s r : ℝ} {t : ℕ}
    (h4r : ¬ (4:ℝ) * r = 0) :
    buy_step d s r t = .ok
      ({ d with _unvested_shares := setKey d._unvested_shares t (s * Real.sqrt (1 + (if d.reserve_token_holdings < (d.private_price ^ 2 * s ^ 2 - 4 * r ^ 2) / (4 * r) then d.reserve_token_holdings else (d.private_price ^ 2 * s ^ 2 - 4 * r ^ 2) / (4 * r)) / r) - s) },
       s * Real.sqrt (1 + (if d.reserve_token_holdings < (d.private_price ^ 2 * s ^ 2 - 4 * r ^ 2) / (4 * r) then d.reserve_token_holdings else (d.private_price ^ 2 * s ^ 2 - 4 * r ^ 2) / (4 * r)) / r) - s,
       if d.reserve_token_holdings < (d.private_price ^ 2 * s ^ 2 - 4 * r ^ 2) / (4 * r) then d.reserve_token_holdings else (d.private_price ^ 2 * s ^ 2 - 4 * r ^ 2) / (4 * r)) := by
  unfold buy_step
  rw [if_neg h4r]

/-- Under a sane state (positive pool, nonnegative prices and balances) the
buy side of `buy_or_sell` never raises: every boundary condition is resolved
by clipping. -/
theorem buy_branch_no_raise {d : Delegator} {s r sp m : ℝ} {t : ℕ}
    (hr : 0 < r) (hsup : 0 < s) (hsp : 0 ≤ sp) (hbuy : sp < d.private_price)
    (hhold : 0 ≤ d.reserve_token_holdings)
    (hves : 0 ≤ d.vested_shares)
    (hunv : ∀ p ∈ d._unvested_shares, 0 ≤ p.2) :
    ∃ out, d.buy_or_sell s r sp m t = .ok out := by
  by_cases hact : pct_price_diff d.private_price sp < m
  · exact ⟨(d, 0, 0), by unfold Delegator.buy_or_sell; rw [if_pos hact]⟩
  have hp : 0 < d.private_price := lt_of_le_of_lt hsp hbuy
  have h4r : ¬ (4:ℝ) * r = 0 := by intro h; linarith
  have ha0 : -r < (d.private_price ^ 2 * s ^ 2 - 4 * r ^ 2) / (4 * r) := by
    rw [lt_div_iff₀ (by linarith : (0:ℝ) < 4 * r)]
    nlinarith [mul_pos (mul_pos hp hp) (mul_pos hsup hsup)]
  have har : -r < (if d.reserve_token_holdings < (d.private_price ^ 2 * s ^ 2 - 4 * r ^ 2) / (4 * r) then d.reserve_token_holdings else (d.private_price ^ 2 * s ^ 2 - 4 * r ^ 2) / (4 * r)) := by
    split
    · linarith
    · exact ha0
  set ar := if d.reserve_token_holdings < (d.private_price ^ 2 * s ^ 2 - 4 * r ^ 2) / (4 * r) then d.reserve_token_holdings else (d.private_price ^ 2 * s ^ 2 - 4 * r ^ 2) / (4 * r) with hardef
  have harr : -1 < ar / r := by
    rw [lt_div_iff₀ hr]
    linarith
  have hsqrt : 0 < Real.sqrt (1 + ar / r) := Real.sqrt_pos.mpr (by linarith)
  have h1 : ¬ s + (s * Real.sqrt (1 + ar / r) - s) = 0 := by
    have := mul_pos hsup hsqrt
    intro h
    linarith
  have h2 : s * Real.sqrt (1 + ar / r) - s ≠ 0 → 0 < ar →
      ¬ Delegator.shares { d with _unvested_shares := setKey d._unvested_shares t (s * Real.sqrt (1 + ar / r) - s) } = 0 := by
    intro hcs harpos
    have hsq1 : 1 < Real.sqrt (1 + ar / r) := by
      rw [Real.lt_sqrt (by norm_num : (0:ℝ) ≤ 1)]
      have : 0 < ar / r := div_pos harpos hr
      nlinarith
    have hcspos : 0 < s * Real.sqrt (1 + ar / r) - s := by nlinarith
    have hge := sum_setKey_ge d._unvested_shares t
      (s * Real.sqrt (1 + ar / r) - s) hunv (le_of_lt hcspos)
    intro h0
    have hform : Delegator.shares { d with _unvested_shares := setKey d._unvested_shares t (s * Real.sqrt (1 + ar / r) - s) } =
        ((setKey d._unvested_shares t (s * Real.sqrt (1 + ar / r) - s)).map
          Prod.snd).sum + d.vested_shares := rfl
    rw [hform] at h0
    linarith
  obtain ⟨out, hout⟩ := settle_ok_exists h1 h2
  exact ⟨out, by
    rw [buy_or_sell_eq_buy hact hbuy, buy_step_ok_exists h4r]
    exact hout⟩

/-- An agent holding the whole (unit) supply vested, with private price 0:
selling everything drives `supply + created_shares` to zero. -/
noncomputable def dWhale : Delegator :=
  { dBuy with private_price := 0, vested_shares := 1, minimum_shares := 0 }

/-- Running `buy_or_sell` on `dWhale` against supply 1, reserve 1, spot price
1 and threshold 1/2 burns the whole supply and then divides by
`supply + created_shares = 0`: the call raises `ZeroDivisionError`. -/
theorem dWhale_run : dWhale.buy_or_sell 1 1 1 (1/2) 0 = .error .zeroDivision := by
  have hact : ¬ pct_price_diff dWhale.private_price 1 < 1/2 := by
    unfold pct_price_diff
    show ¬ (if (0:ℝ) < 1 then |((0:ℝ) - 1) / 1| else 0) < 1/2
    rw [if_pos (by norm_num : (0:ℝ) < 1),
      show ((0:ℝ) - 1) / 1 = -1 by norm_num, abs_neg,
      abs_of_nonneg (by norm_num : (0:ℝ) ≤ 1)]
    norm_num
  have hs : sell_step dWhale 1 1 =
      .ok ({ dWhale with vested_shares := dWhale.vested_shares - 1 },
           -(1:ℝ), -1) := by
    unfold sell_step dWhale dBuy
    norm_num
  rw [buy_or_sell_eq_sell hact (show dWhale.private_price < 1 by show (0:ℝ) < 1; norm_num), hs]
  unfold settle
  dsimp only
  rw [if_pos (by norm_num : (1:ℝ) + -1 = 0)]

/-- C7 (corrected), counterexample: `buy_or_sell` can raise an error, namely a
`ZeroDivisionError`, at a concrete input. -/
theorem buy_or_sell_can_raise : dWhale.buy_or_sell 1 1 1 (1/2) 0 = .error .zeroDivision :=
  dWhale_run

/-- C7 (amended): every error `buy_or_sell` raises is a `ZeroDivisionError`
from a zero denominator, never a boundary-condition failure; in particular
with a positive pool, nonnegative spot price and a nonnegative-balance agent,
a buy-side call always returns normally with all clipping saturating; and the
only hard assertion in the agent is `supply > 0` in `dividend_value`. -/
theorem no_raise_amended :
    (∀ (d : Delegator) (s r sp m : ℝ) (t : ℕ) (e : PyErr),
      d.buy_or_sell s r sp m t = .error e → e = .zeroDivision) ∧
    (∀ (d : Delegator) (s r sp m : ℝ) (t : ℕ),
      0 < r → 0 < s → 0 ≤ sp → sp < d.private_price →
      0 ≤ d.reserve_token_holdings → 0 ≤ d.vested_shares →
      (∀ p ∈ d._unvested_shares, 0 ≤ p.2) →
      ∃ out, d.buy_or_sell s r sp m t = .ok out) ∧
    (∀ (d : Delegator) (supply os x : ℝ),
      (∃ out, d.dividend_value supply os x = .ok out) ↔ 0 < supply) := by
  refine ⟨fun d s r sp m t e h => buy_or_sell_err h,
    fun d s r sp m t hr hsup hsp hbuy hhold hves hunv =>
      buy_branch_no_raise hr hsup hsp hbuy hhold hves hunv,
    fun d supply os x => ?_⟩
  constructor
  · rintro ⟨out, hout⟩
    by_contra hle
    unfold Delegator.dividend_value at hout
    rw [if_neg hle] at hout
    exact absurd hout (by simp)
  · intro h
    exact ⟨_, by unfold Delegator.dividend_value; rw [if_pos h]⟩

/-- Witness for the amended C7: the whale sell raises exactly
`ZeroDivisionError`; the example buy returns normally; `dividend_value`
succeeds exactly on positive supply. -/
theorem no_raise_amended_holds :
    dWhale.buy_or_sell 1 1 1 (1/2) 0 = .error .zeroDivision ∧
    PyErr.zeroDivision = PyErr.zeroDivision ∧
    ((0:ℝ) < 1000 ∧ (0:ℝ) ≤ 2 ∧ (2:ℝ) < dBuy.private_price ∧
      (0:ℝ) ≤ dBuy.reserve_token_holdings ∧ (0:ℝ) ≤ dBuy.vested_shares) ∧
    (∃ out, dBuy.buy_or_sell 1000 1000 2 (1/100) 0 = .ok out) ∧
    ((∃ out, dBuy.dividend_value 100 (1/5) 1 = .ok out) ↔ (0:ℝ) < 100) := by
  have hbuy : (2:ℝ) < dBuy.private_price := by show (2:ℝ) < 3; norm_num
  have hhold : (0:ℝ) ≤ dBuy.reserve_token_holdings := by
    show (0:ℝ) ≤ 500; norm_num
  have hves : (0:ℝ) ≤ dBuy.vested_shares := by show (0:ℝ) ≤ 0; norm_num
  have hunv : ∀ p ∈ dBuy._unvested_shares, 0 ≤ p.2 := by
    intro p hp
    have : p ∈ [((0:ℕ), (0:ℝ))] := hp
    simp only [List.mem_singleton] at this
    rw [this]
  refine ⟨dWhale_run, no_raise_amended.1 dWhale 1 1 1 (1/2) 0 .zeroDivision dWhale_run,
    ⟨by norm_num, by norm_num, hbuy, hhold, hves⟩,
    no_raise_amended.2.1 dBuy 1000 1000 2 (1/100) 0 (by norm_num) (by norm_num)
      (by norm_num) hbuy hhold hves hunv,
    no_raise_amended.2.2 dBuy 100 (1/5) 1⟩

/-! ### Constructor analysis for C8 and C9 -/

/-- A successful Python list index always resolves below the length. -/
theorem pyIdx_some_lt {len : ℕ} {i : ℤ} {n : ℕ} (h : pyIdx len i = some n) :
    n < len := by
  unfold pyIdx at h
  dsimp only at h
  by_cases hi : i < 0
  · rw [if_pos hi] at h
    split at h
    case _ hc =>
      simp only [Option.some.injEq] at h
      omega
    case _ => exact absurd h (by simp)
  · rw [if_neg hi] at h
    split at h
    case _ hc =>
      simp only [Option.some.injEq] at h
      omega
    case _ => exact absurd h (by simp)

/-- The delegator produced by the constructor when called with
`delegator_type=0` and counter value `id=0`: the rotation resolves to type 3
(`((0 - 1) mod 3) + 1` with Python's nonnegative mod). -/
noncomputable def dMk0 : Delegator :=
  { id := 0
    _unvested_shares := [(0, 0)]
    vested_shares := 0
    revenue_token_holdings := 0
    reserve_token_holdings := 0
    expected_revenue := 0
    discount_rate := 9/10
    time_factor := 10
    delegator_activity_rate := 1/2
    minimum_shares := 0
    avg_delta_price := 0
    regression_to_mean_private_price := 2
    value_private_price := 2
    trendline_private_price := 2
    delegator_type := 3
    component_weights := [0, 0, 1]
    private_price := 0
    smoothing_factor := 9/10
    cost_basis := 0
    unrealized_gains_from_shares := 0
    realized_gains_from_shares := 0
    realized_gains_from_dividends := 0 }

/-- Constructing with `delegator_type=0`, `id=0` yields `dMk0`. -/
theorem dMk0_run :
    Delegator.make 0 0 0 (9/10) 2 (1/2) 0 (9/10) 0 0 1 1 1 = .ok dMk0 := by
  unfold Delegator.make get_component_weights pyListSet pyIdx dMk0
  norm_num
  rw [show Int.toNat 2 = 2 from rfl]
  rfl

/-- C8 (corrected), counterexample: with an unset type and counter value 0 the
constructor assigns type 3, not `(0 mod 3) + 1 = 1` as claimed. -/
theorem delegator_type_formula_counterexample :
    (Delegator.make 0 0 0 (9/10) 2 (1/2) 0 (9/10) 0 0 1 1 1).map
        (fun d => d.delegator_type) = .ok 3 ∧
    ((0:ℤ) % 3) + 1 = 1 ∧ (3:ℤ) ≠ 1 := by
  refine ⟨?_, by decide, by decide⟩
  rw [dMk0_run]
  rfl

/-- C8 (amended): an agent constructed with `delegator_type` given as 0/unset
gets `delegator_type = ((id - 1) mod 3) + 1` (Python's nonnegative mod), where
`id` is the process-wide counter value. -/
theorem delegator_type_rotation_amended
    (sh rth er dr sp dar mins sf : ℝ) (id : ℕ) (e1 e2 e3 : ℝ)
    (hdr : ¬ (1:ℝ) - dr = 0) :
    (Delegator.make sh rth er dr sp dar mins sf 0 id e1 e2 e3).map
      (fun d => d.delegator_type) = .ok (((id : ℤ) - 1) % 3 + 1) := by
  unfold Delegator.make
  rw [if_neg hdr]
  dsimp only
  rw [if_neg (show ¬ (0:ℤ) ≠ 0 by simp)]
  have h3 : ((id : ℤ) - 1) % 3 = 0 ∨ ((id : ℤ) - 1) % 3 = 1 ∨
      ((id : ℤ) - 1) % 3 = 2 := by omega
  rcases h3 with h | h | h <;>
    rw [h] <;>
    · unfold get_component_weights pyListSet pyIdx
      norm_num
      rfl

/-- Witness for the amended C8 at `id = 5`: `((5 - 1) mod 3) + 1 = 2`. -/
theorem delegator_type_rotation_amended_holds :
    ¬ (1:ℝ) - 9/10 = 0 ∧
    (Delegator.make 0 0 0 (9/10) 2 (1/2) 0 (9/10) 0 5 1 1 1).map
      (fun d => d.delegator_type) = .ok 2 := by
  have hdr : ¬ (1:ℝ) - 9/10 = 0 := by norm_num
  refine ⟨hdr, ?_⟩
  rw [delegator_type_rotation_amended 0 0 0 (9/10) 2 (1/2) 0 (9/10) 5 1 1 1 hdr,
    show (((5:ℕ) : ℤ) - 1) % 3 + 1 = 2 by decide]

/-- C9: every successfully constructed delegator has a nonzero (resolved)
`delegator_type`, so the mixed branch of `get_component_weights` is never
taken from construction, and its `component_weights` is the one-hot vector
written by `normalized_weights[delegator_type - 1] = 1` (Python indexing) —
one of `[1,0,0]`, `[0,1,0]`, `[0,0,1]`: no constructed agent blends the three
price signals. -/
theorem constructed_weights_one_hot :
    ∀ (sh rth er dr sp dar mins sf : ℝ) (dt : ℤ) (id : ℕ) (e1 e2 e3 : ℝ)
      (d : Delegator),
      Delegator.make sh rth er dr sp dar mins sf dt id e1 e2 e3 = .ok d →
      d.delegator_type ≠ 0 ∧
      pyListSet [0, 0, 0] (d.delegator_type - 1) 1 = .ok d.component_weights ∧
      (d.component_weights = [1, 0, 0] ∨ d.component_weights = [0, 1, 0] ∨
        d.component_weights = [0, 0, 1]) := by
  intro sh rth er dr sp dar mins sf dt id e1 e2 e3 d h
  unfold Delegator.make at h
  split at h
  · exact absurd h (by simp)
  dsimp only at h
  rcases hw : get_component_weights e1 e2 e3
      (if dt ≠ 0 then dt else ((id : ℤ) - 1) % 3 + 1) with e | ws
  · rw [hw] at h
    exact absurd h (by simp)
  rw [hw] at h
  simp only [Except.ok.injEq] at h
  subst h
  have hRT0 : (if dt ≠ 0 then dt else ((id : ℤ) - 1) % 3 + 1) ≠ 0 := by
    split
    · assumption
    · omega
  have hset : pyListSet [0, 0, 0]
      ((if dt ≠ 0 then dt else ((id : ℤ) - 1) % 3 + 1) - 1) 1 = .ok ws := by
    unfold get_component_weights at hw
    rw [if_neg hRT0] at hw
    rcases hset' : pyListSet [0, 0, 0]
        ((if dt ≠ 0 then dt else ((id : ℤ) - 1) % 3 + 1) - 1) 1 with e' | nw
    · rw [hset'] at hw
      exact absurd hw (by simp)
    · rw [hset'] at hw
      exact hw
  refine ⟨hRT0, hset, ?_⟩
  rcases hidx : pyIdx ([0, 0, 0] : List ℝ).length
      ((if dt ≠ 0 then dt else ((id : ℤ) - 1) % 3 + 1) - 1) with _ | n
  · unfold pyListSet at hset
    rw [hidx] at hset
    exact absurd hset (by simp)
  · unfold pyListSet at hset
    rw [hidx] at hset
    simp only [Except.ok.injEq] at hset
    have hn3 : n < 3 := pyIdx_some_lt hidx
    subst hset
    interval_cases n
    · left; rfl
    · right; left; rfl
    · right; right; rfl

/-- Witness for C9 at the concrete construction `dMk0_run`: the resolved type
is 3 and the weights are the one-hot `[0,0,1]`. -/
theorem constructed_weights_one_hot_holds :
    Delegator.make 0 0 0 (9/10) 2 (1/2) 0 (9/10) 0 0 1 1 1 = .ok dMk0 ∧
    dMk0.delegator_type ≠ 0 ∧
    pyListSet [0, 0, 0] (dMk0.delegator_type - 1) 1 = .ok dMk0.component_weights ∧
    (dMk0.component_weights = [1, 0, 0] ∨ dMk0.component_weights = [0, 1, 0] ∨
      dMk0.component_weights = [0, 0, 1]) := by
  have h := constructed_weights_one_hot 0 0 0 (9/10) 2 (1/2) 0 (9/10) 0 0 1 1 1
    dMk0 dMk0_run
  exact ⟨dMk0_run, h.1, h.2.1, h.2.2⟩
